import Mathlib

/-!
Verification of the breathing-exercise core of the Breathly app.

The embedding follows the TypeScript sources:
  src/components/Exercise/ExerciseCircle.tsx  (exercise orchestrator)
  the useInterval hook                        (ticker)
Repository utilities that are referenced by ExerciseCircle.tsx but whose
source files are not part of the snapshot (loopAnimations, animate,
useOnMount) are modelled from the specification, as marked on each
definition.
-/

/-! ## Data model: Step (src/types/Step, as used by ExerciseCircle.tsx) -/

/-- The step identifier enum: inhale, afterInhale, exhale, afterExhale. -/
inductive StepId where
  | inhale
  | afterInhale
  | exhale
  | afterExhale
deriving DecidableEq, Repr

/-- One breathing step: id, duration in milliseconds, skipped flag,
showDots flag and display label. -/
structure Step where
  id : StepId
  duration : Nat
  skipped : Bool
  showDots : Bool
  label : String
deriving DecidableEq, Repr

/-- ExerciseCircle.tsx line 46:
`const activeSteps = steps.filter((x) => !x.skipped);` -/
def activeSteps (steps : List Step) : List Step :=
  steps.filter (fun x => !x.skipped)

/-- ExerciseCircle.tsx line 47:
`const currentStep = activeSteps[currentStepIndex];`
A JavaScript out-of-bounds index yields `undefined`, modelled as `none`. -/
def currentStep (steps : List Step) (currentStepIndex : Nat) : Option Step :=
  (activeSteps steps).get? currentStepIndex

/-- ExerciseCircle.tsx line 185: the render reads `currentStep.label`;
when `currentStep` is `undefined` this member access fails, modelled by
propagating `none`. -/
def renderLabel (steps : List Step) (currentStepIndex : Nat) : Option String :=
  (currentStep steps currentStepIndex).map Step.label

/-- Spec-side recursion for claim C8: the input list with every entry whose
skipped flag is true removed, in order. Stated from the words of the spec
to be compared with `activeSteps`, which is taken from the source. -/
def removeSkippedSpec : List Step → List Step
  | [] => []
  | s :: rest => if s.skipped then removeSkippedSpec rest else s :: removeSkippedSpec rest

/-! ## Close action (ExerciseCircle.tsx lines 193-199) -/

/-- ExerciseCircle.tsx line 196:
`const isBreathingDone = elapsedTime * 1000 >= minimumElapsedTime;`
`elapsedTime` is supplied in seconds, `minimumElapsedTime` in
milliseconds; the multiplication converts the elapsed time to
milliseconds before the comparison. -/
def isBreathingDone (elapsedTime minimumElapsedTime : ℚ) : Bool :=
  decide (elapsedTime * 1000 ≥ minimumElapsedTime)

/-- ExerciseCircle.tsx lines 195-198: the close handler computes
`isBreathingDone` and passes exactly that boolean to `onClosePress`. -/
def onClosePressHandler {α : Type} (onClosePress : Bool → α)
    (elapsedTime minimumElapsedTime : ℚ) : α :=
  onClosePress (isBreathingDone elapsedTime minimumElapsedTime)

/-! ## Ticker (useInterval hook) -/

/-- State of the useInterval hook. `callbackCell` is `callbackRef.current`
(initially `null`); `timerPeriod` is the interval of the live setInterval
registration, if any; `timerGen` counts setInterval registrations, so that
an unchanged value witnesses that the registration was not torn down and
re-created. Callbacks are identified abstractly by natural numbers. -/
structure TickerState where
  callbackCell : Option Nat
  timerPeriod : Option Nat
  timerGen : Nat
deriving DecidableEq, Repr

/-- The hook state before the first render: `useRef(null)` and no timer. -/
def initialTicker : TickerState :=
  { callbackCell := none, timerPeriod := none, timerGen := 0 }

/-- One render/update cycle of `useInterval(callback, interval)`:
the first effect (no dependency array) stores the latest callback in the
ref; the second effect (dependency `[interval]`) tears down and re-creates
the setInterval registration only when the interval changed. -/
def useIntervalRender (s : TickerState) (callback : Nat) (interval : Nat) :
    TickerState :=
  if s.timerPeriod = some interval then
    { s with callbackCell := some callback }
  else
    { s with callbackCell := some callback, timerPeriod := some interval,
             timerGen := s.timerGen + 1 }

/-- One firing of the scheduled `tick` closure:
`callbackRef.current && callbackRef.current()` invokes the callback stored
in the cell at firing time, and invokes nothing when the cell is unset.
Returns the identifier of the invoked callback, if any. -/
def tick (s : TickerState) : Option Nat :=
  s.callbackCell

/-! ## Step sequencer (loopAnimations) -/

/-- Modelled from the spec: the state machine of the step sequencer
implemented by src/utils/loopAnimations, whose source file is not part of
the snapshot (ExerciseCircle.tsx only calls it in startAnimationSteps).
States are Idle, PlayingStep(i) and Stopped. -/
inductive SeqState where
  | idle
  | playing (i : Nat)
  | stopped
deriving DecidableEq, Repr

/-- Modelled from the spec: the events the sequencer reacts to — an
explicit start, the completion callback of the current animation carrying
its finished flag, and an explicit stop. -/
inductive SeqEvent where
  | start
  | animDone (finished : Bool)
  | stop
deriving DecidableEq, Repr

/-- Modelled from the spec: one transition of the sequencer over an active
sequence of length N. The returned option is the index passed to
onStepStart by this transition, if any. Start enters step 0 and fires
onStepStart 0; a completion with finished = true advances from step i to
step (i+1) % N and fires onStepStart there; a completion with
finished = false (produced by stopping the in-flight animation) fires
nothing; stop enters the Stopped state, which absorbs every later event
for this loop instance, fires nothing, and releases the pending
scheduling. -/
def seqStep (N : Nat) : SeqState → SeqEvent → SeqState × Option Nat
  | SeqState.idle, SeqEvent.start => (SeqState.playing 0, some 0)
  | SeqState.idle, SeqEvent.animDone _ => (SeqState.idle, none)
  | SeqState.idle, SeqEvent.stop => (SeqState.stopped, none)
  | SeqState.playing i, SeqEvent.animDone true =>
      (SeqState.playing ((i + 1) % N), some ((i + 1) % N))
  | SeqState.playing i, SeqEvent.animDone false => (SeqState.playing i, none)
  | SeqState.playing _, SeqEvent.stop => (SeqState.stopped, none)
  | SeqState.playing i, SeqEvent.start => (SeqState.playing i, none)
  | SeqState.stopped, _ => (SeqState.stopped, none)

/-- Run the sequencer over a list of events, collecting the indices passed
to onStepStart, in order. -/
def seqRun (N : Nat) (s : SeqState) : List SeqEvent → SeqState × List Nat
  | [] => (s, [])
  | e :: es =>
      let r1 := seqStep N s e
      let r2 := seqRun N r1.1 es
      (r2.1, r1.2.toList ++ r2.2)

/-- ExerciseCircle.tsx lines 123-129, with the useOnMount hook and
loopAnimations modelled from the spec: the completion callback of the
entrance animation starts the sequencer only when finished = true, and
does nothing otherwise. Returns the sequencer state and the onStepStart
indices fired at mount time. -/
def mountSequencer (N : Nat) (finished : Bool) : SeqState × List Nat :=
  if finished then seqRun N SeqState.idle [SeqEvent.start]
  else (SeqState.idle, [])

/-! ## Per-step animation composition (ExerciseCircle.tsx lines 49-67) -/

/-- The animated values held by ExerciseCircle (lines 41-44). -/
inductive AnimVal where
  | showUpAnimVal
  | scaleAnimVal
  | textAnimVal
  | circleMinAnimVal
deriving DecidableEq, Repr

/-- One timed transition of an animated value: at startTime, relative to
the start of the composed unit, the value begins moving to toValue over
duration milliseconds. -/
structure Timing where
  value : AnimVal
  toValue : ℚ
  startTime : Int
  duration : Nat
deriving DecidableEq, Repr

/-- A composed animation unit: the list of its timed transitions, with
start offsets relative to the start of the unit. -/
abbrev Anim := List Timing

/-- Modelled from the spec: the animate util (src/utils/animate, whose
source file is not part of the snapshot) wraps one timed transition of one
value, starting at offset 0 of its unit. -/
def animate (value : AnimVal) (toValue : ℚ) (duration : Nat) : Anim :=
  [{ value := value, toValue := toValue, startTime := 0, duration := duration }]

/-- Shift every transition of a unit by a delay. -/
def shiftAnim (delay : Int) (a : Anim) : Anim :=
  a.map (fun t => { t with startTime := t.startTime + delay })

/-- Animated.parallel semantics: all member units start together. -/
def parallelAnims (anims : List Anim) : Anim :=
  anims.flatten

/-- Auxiliary recursion for the stagger combinator: the accumulator is the
start offset of the next member unit. -/
def staggerAux (delay : Int) (acc : Int) : List Anim → Anim
  | [] => []
  | a :: rest => shiftAnim acc a ++ staggerAux delay (acc + delay) rest

/-- Animated.stagger(delay, anims) semantics: member unit number i starts
delay * i after the start of the group. -/
def staggerAnims (delay : Int) (anims : List Anim) : Anim :=
  staggerAux delay 0 anims

/-- ExerciseCircle.tsx line 32: `const fadeInAnimDuration = 400;` -/
def fadeInAnimDuration : Nat := 400

/-- ExerciseCircle.tsx lines 49-67 (animateStep): a stagger with delay
duration - textDuration over two members: first, in parallel, the scale
value moves to toValue over the full duration while the text value fades
in to 1 over textDuration; second, the text value fades out to 0 over
textDuration. -/
def animateStep (toValue : ℚ) (duration : Nat) : Anim :=
  let textDuration := fadeInAnimDuration
  staggerAnims ((duration : Int) - (textDuration : Int))
    [ parallelAnims
        [ animate AnimVal.scaleAnimVal toValue duration,
          animate AnimVal.textAnimVal 1 textDuration ],
      animate AnimVal.textAnimVal 0 textDuration ]

/-! ## onStepStart side effects (ExerciseCircle.tsx lines 84-109) -/

/-- The action applied to the minimized-circle animated value by one
onStepStart call. -/
inductive CircleMinAction where
  | showMin
  | hideMin
  | noAction
deriving DecidableEq, Repr

/-- The observable effects of one onStepStart call: the index stored by
setCurrentStepIndex, the sound cue ids passed to playSound, and the action
taken on the minimized-circle animation. -/
structure StepEffects where
  setCurrentStepIndex : Nat
  sounds : List String
  circleMin : CircleMinAction
deriving DecidableEq, Repr

/-- ExerciseCircle.tsx lines 84-109 (onStepStart): stores the index,
looks the step up among the active steps (a JavaScript out-of-bounds
index yields undefined, modelled as none), then branches on the step id
exactly as the if/else chain of the source does. -/
def onStepStart (active : List Step) (stepIndex : Nat) : Option StepEffects :=
  match active.get? stepIndex with
  | none => none
  | some step =>
    if step.id = StepId.exhale then
      some { setCurrentStepIndex := stepIndex,
             sounds := ["lauraBreatheOut"],
             circleMin := CircleMinAction.showMin }
    else if step.id = StepId.inhale then
      some { setCurrentStepIndex := stepIndex,
             sounds := ["lauraBreatheIn"],
             circleMin := CircleMinAction.hideMin }
    else if step.id = StepId.afterExhale then
      some { setCurrentStepIndex := stepIndex,
             sounds := ["lauraHold"],
             circleMin := CircleMinAction.hideMin }
    else if step.id = StepId.afterInhale then
      some { setCurrentStepIndex := stepIndex,
             sounds := ["lauraHold"],
             circleMin := CircleMinAction.noAction }
    else
      some { setCurrentStepIndex := stepIndex,
             sounds := [],
             circleMin := CircleMinAction.noAction }

/-- The sound cue each step id selects, from the words of the claim. -/
def soundForId : StepId → String
  | StepId.exhale => "lauraBreatheOut"
  | StepId.inhale => "lauraBreatheIn"
  | StepId.afterInhale => "lauraHold"
  | StepId.afterExhale => "lauraHold"

/-- The minimized-circle action the source takes for each step id. -/
def circleMinForId : StepId → CircleMinAction
  | StepId.exhale => CircleMinAction.showMin
  | StepId.inhale => CircleMinAction.hideMin
  | StepId.afterExhale => CircleMinAction.hideMin
  | StepId.afterInhale => CircleMinAction.noAction

/-! ## Helper lemmas about the sequencer -/

theorem seqRun_playing_all_finished (N : Nat) (k : Nat) : ∀ i : Nat,
    (seqRun N (SeqState.playing i) (List.replicate k (SeqEvent.animDone true))).2
      = (List.range k).map (fun j => (i + 1 + j) % N) := by
  induction k with
  | zero => intro i; rfl
  | succ k ih =>
    intro i
    have hstep :
        seqRun N (SeqState.playing i)
            (List.replicate (k + 1) (SeqEvent.animDone true))
          = (let r2 := seqRun N (SeqState.playing ((i + 1) % N))
                (List.replicate k (SeqEvent.animDone true));
             (r2.1, (i + 1) % N :: r2.2)) := by
      simp [List.replicate_succ, seqRun, seqStep]
    rw [hstep]
    simp only [ih ((i + 1) % N), List.range_succ_eq_map, List.map_cons,
      List.map_map]
    congr 1
    apply List.map_congr_left
    intro j _
    simp only [Function.comp_apply]
    have h1 : (i + 1) % N + 1 + j = (i + 1) % N + (1 + j) := by omega
    rw [h1, Nat.mod_add_mod]
    congr 1
    omega

theorem seqRun_stopped_silent (N : Nat) : ∀ es : List SeqEvent,
    seqRun N SeqState.stopped es = (SeqState.stopped, []) := by
  intro es
  induction es with
  | nil => rfl
  | cons e es ih =>
    have hstep : seqStep N SeqState.stopped e = (SeqState.stopped, none) := by
      cases e <;> rfl
    simp [seqRun, hstep, ih]

/-! ## Helper lemmas about the ticker render cycle -/

theorem useIntervalRender_cell (s : TickerState) (cb p : Nat) :
    (useIntervalRender s cb p).callbackCell = some cb := by
  unfold useIntervalRender
  split <;> rfl

theorem useIntervalRender_period (s : TickerState) (cb p : Nat) :
    (useIntervalRender s cb p).timerPeriod = some p := by
  unfold useIntervalRender
  split
  · next h => simpa using h
  · rfl

theorem useIntervalRender_gen_eq (s : TickerState) (cb p : Nat)
    (h : s.timerPeriod = some p) :
    (useIntervalRender s cb p).timerGen = s.timerGen := by
  unfold useIntervalRender
  split
  · rfl
  · next hn => exact absurd (by simpa using h) hn

theorem useIntervalRender_gen_ne (s : TickerState) (cb p : Nat)
    (h : s.timerPeriod ≠ some p) :
    (useIntervalRender s cb p).timerGen = s.timerGen + 1 := by
  unfold useIntervalRender
  split
  · next hc => exact absurd (by simpa using hc) h
  · rfl

/-! ## Theorems -/

/-- C1: For every elapsed time and caller-supplied minimum threshold, the
close handler passes to `onClosePress` exactly the boolean
`elapsedTime * 1000 >= minimumElapsedTime`, i.e. the comparison of the
elapsed time in milliseconds against the threshold in milliseconds, and an
elapsed time exactly equal to the threshold counts as done. -/
theorem closePress_reports_elapsed_comparison (α : Type) (cb : Bool → α)
    (elapsedTime minimumElapsedTime : ℚ) :
    onClosePressHandler cb elapsedTime minimumElapsedTime
        = cb (decide (elapsedTime * 1000 ≥ minimumElapsedTime))
      ∧ isBreathingDone elapsedTime minimumElapsedTime
          = decide (elapsedTime * 1000 ≥ minimumElapsedTime)
      ∧ isBreathingDone (minimumElapsedTime / 1000) minimumElapsedTime = true := by
  refine ⟨rfl, rfl, ?_⟩
  have h : minimumElapsedTime / 1000 * 1000 = minimumElapsedTime :=
    div_mul_cancel₀ minimumElapsedTime (by norm_num)
  simp [isBreathingDone, h]

/-- C2: replacing the registered callback between ticks (with an unchanged
period) makes the next tick invoke the new callback and not the old one,
and does not tear down or re-create the timer registration; only a change
of the period re-creates it. -/
theorem ticker_invokes_latest_callback (s : TickerState) (A B p : Nat)
    (hAB : A ≠ B) :
    tick (useIntervalRender (useIntervalRender s A p) B p) = some B
      ∧ tick (useIntervalRender (useIntervalRender s A p) B p) ≠ some A
      ∧ (useIntervalRender (useIntervalRender s A p) B p).timerGen
          = (useIntervalRender s A p).timerGen
      ∧ ∀ q, q ≠ p →
          (useIntervalRender (useIntervalRender s A p) B q).timerGen
            = (useIntervalRender s A p).timerGen + 1 := by
  have hper : (useIntervalRender s A p).timerPeriod = some p :=
    useIntervalRender_period s A p
  have hcell : tick (useIntervalRender (useIntervalRender s A p) B p) = some B :=
    useIntervalRender_cell (useIntervalRender s A p) B p
  refine ⟨hcell, ?_, ?_, ?_⟩
  · rw [hcell]
    intro h
    exact hAB (Option.some.inj h).symm
  · exact useIntervalRender_gen_eq (useIntervalRender s A p) B p hper
  · intro q hq
    refine useIntervalRender_gen_ne (useIntervalRender s A p) B q ?_
    rw [hper]
    intro h
    exact hq (Option.some.inj h).symm

/-- Witness for C2 at a concrete state and concrete callbacks. -/
theorem ticker_invokes_latest_callback_witness :
    tick (useIntervalRender (useIntervalRender initialTicker 1 100) 2 100)
      = some 2 :=
  (ticker_invokes_latest_callback initialTicker 1 2 100 (by decide)).1

/-- C10: a tick that fires while the callback cell still holds its initial
null value invokes nothing: the tick checks the cell and is a safe no-op
when it is unset. -/
theorem ticker_tick_unset_cell_noop (s : TickerState)
    (h : s.callbackCell = none) :
    tick s = none ∧ tick initialTicker = none := by
  exact ⟨by simp [tick, h], rfl⟩

/-- Witness for C10 at the initial hook state. -/
theorem ticker_tick_unset_cell_noop_witness :
    tick initialTicker = none ∧ tick initialTicker = none :=
  ticker_tick_unset_cell_noop initialTicker rfl

/-- C8: the derived `activeSteps` sequence equals the input list with every
skipped entry removed (the spec-side recursion), is a sublist of the input
(so the relative order of the remaining entries is preserved), and every
remaining entry has its skipped flag false. The derivation is a pure
function of the input list, which it leaves unchanged. -/
theorem activeSteps_filters_skipped (steps : List Step) :
    activeSteps steps = removeSkippedSpec steps
      ∧ List.Sublist (activeSteps steps) steps
      ∧ (activeSteps steps).all (fun s => !s.skipped) = true := by
  refine ⟨?_, ?_, ?_⟩
  · induction steps with
    | nil => rfl
    | cons s rest ih =>
      cases h : s.skipped with
      | true => simpa [activeSteps, removeSkippedSpec, h, List.filter_cons] using ih
      | false => simpa [activeSteps, removeSkippedSpec, h, List.filter_cons] using ih
  · exact List.filter_sublist steps
  · rw [List.all_eq_true]
    intro s hs
    have hs2 : s ∈ steps.filter (fun x => !x.skipped) := hs
    exact (List.mem_filter.mp hs2).2

/-- C9: with every input step skipped, the lookup `activeSteps[0]` yields
no element and the render access of its label fails; the lookup at the
initial index 0 succeeds when at least one step is not skipped, and it
succeeds at every reachable index below the active length. -/
theorem currentStep_degenerate_lookup (steps : List Step) :
    ((∀ s ∈ steps, s.skipped = true) →
        currentStep steps 0 = none ∧ renderLabel steps 0 = none)
      ∧ ((∃ s ∈ steps, s.skipped = false) →
          ∃ st, currentStep steps 0 = some st)
      ∧ (∀ i, i < (activeSteps steps).length →
          ∃ st, currentStep steps i = some st) := by
  refine ⟨?_, ?_, ?_⟩
  · intro hall
    have hnil : activeSteps steps = [] := by
      simp [activeSteps, List.filter_eq_nil_iff]
      intro s hs
      simpa using hall s hs
    simp [currentStep, renderLabel, hnil]
  · rintro ⟨s, hs, hsk⟩
    have hmem : s ∈ activeSteps steps := by
      simp [activeSteps, List.mem_filter, hs, hsk]
    have hpos : 0 < (activeSteps steps).length :=
      List.length_pos.mpr (List.ne_nil_of_mem hmem)
    cases h : (activeSteps steps).get? 0 with
    | none =>
      have := List.get?_eq_none.mp h
      omega
    | some st => exact ⟨st, by simpa [currentStep] using h⟩
  · intro i hi
    cases h : (activeSteps steps).get? i with
    | none =>
      have := List.get?_eq_none.mp h
      omega
    | some st => exact ⟨st, by simpa [currentStep] using h⟩

/-- C3: for every non-empty active sequence of length N, starting the
sequencer and letting every animation finish with finished = true fires
onStepStart once per completion, in index order 0, 1, ..., wrapping past
N-1 back to 0 indefinitely; after N-1 completions each index has been
visited exactly once, in order; the transition from step i advances to
(i+1) % N and fires only on finished = true. -/
theorem sequencer_visits_indices_in_order (N k : Nat) (hN : 0 < N) :
    (seqRun N SeqState.idle
          (SeqEvent.start :: List.replicate k (SeqEvent.animDone true))).2
        = (List.range (k + 1)).map (fun j => j % N)
      ∧ (seqRun N SeqState.idle
            (SeqEvent.start :: List.replicate (N - 1) (SeqEvent.animDone true))).2
          = List.range N
      ∧ (∀ i, seqStep N (SeqState.playing i) (SeqEvent.animDone true)
            = (SeqState.playing ((i + 1) % N), some ((i + 1) % N)))
      ∧ (∀ i, seqStep N (SeqState.playing i) (SeqEvent.animDone false)
            = (SeqState.playing i, none)) := by
  have hmain : ∀ m : Nat,
      (seqRun N SeqState.idle
          (SeqEvent.start :: List.replicate m (SeqEvent.animDone true))).2
        = (List.range (m + 1)).map (fun j => j % N) := by
    intro m
    have h0 : seqStep N SeqState.idle SeqEvent.start
        = (SeqState.playing 0, some 0) := rfl
    simp only [seqRun, h0, Option.toList_some, List.singleton_append,
      seqRun_playing_all_finished N m 0]
    rw [List.range_succ_eq_map]
    simp only [List.map_cons, List.map_map]
    congr 1
    apply List.map_congr_left
    intro j _
    simp only [Function.comp_apply]
    congr 1
    omega
  refine ⟨hmain k, ?_, fun i => rfl, fun i => rfl⟩
  have hN1 : N - 1 + 1 = N := by omega
  rw [hmain (N - 1), hN1]
  have hlt : ∀ j ∈ List.range N, j % N = j := by
    intro j hj
    exact Nat.mod_eq_of_lt (List.mem_range.mp hj)
  calc (List.range N).map (fun j => j % N)
      = (List.range N).map id := List.map_congr_left hlt
    _ = List.range N := List.map_id (List.range N)

/-- Witness for C3 with three active steps and five completions. -/
theorem sequencer_visits_indices_in_order_witness :
    (seqRun 3 SeqState.idle
        (SeqEvent.start :: List.replicate 5 (SeqEvent.animDone true))).2
      = [0, 1, 2, 0, 1, 2] :=
  ((sequencer_visits_indices_in_order 3 5 (by decide)).1).trans (by decide)

/-- C4: after stop the sequencer fires no further onStepStart for any
later event sequence; stop on a playing state enters Stopped without
firing, and once stopped a stale completion callback (the in-flight
animation reports finished = false after being stopped) does not advance
and fires nothing. -/
theorem sequencer_stop_silences_outputs (N : Nat) (es : List SeqEvent)
    (i : Nat) :
    (seqRun N SeqState.stopped es).2 = []
      ∧ seqStep N (SeqState.playing i) SeqEvent.stop = (SeqState.stopped, none)
      ∧ seqStep N SeqState.stopped (SeqEvent.animDone false)
          = (SeqState.stopped, none) :=
  ⟨by rw [seqRun_stopped_silent], rfl, rfl⟩

/-- C6: the sequencer starts if and only if the entrance animation
completes with finished = true: a completion with finished = false leaves
the sequencer idle and fires no step side effect, while finished = true
enters step 0 and fires onStepStart 0. -/
theorem mount_starts_sequencer_iff_finished (N : Nat) :
    mountSequencer N false = (SeqState.idle, [])
      ∧ mountSequencer N true = (SeqState.playing 0, [0]) :=
  ⟨rfl, rfl⟩

/-- Witness for C9: a single all-skipped list and a single unskipped list. -/
theorem currentStep_degenerate_lookup_witness :
    (currentStep [⟨StepId.inhale, 4000, true, false, "in"⟩] 0 = none
        ∧ renderLabel [⟨StepId.inhale, 4000, true, false, "in"⟩] 0 = none)
      ∧ ∃ st, currentStep [⟨StepId.exhale, 2000, false, true, "out"⟩] 0 = some st :=
  ⟨(currentStep_degenerate_lookup [⟨StepId.inhale, 4000, true, false, "in"⟩]).1
      (by intro s hs; simp at hs; simp [hs]),
    (currentStep_degenerate_lookup [⟨StepId.exhale, 2000, false, true, "out"⟩]).2.1
      ⟨⟨StepId.exhale, 2000, false, true, "out"⟩, by simp⟩⟩

/-- C5: for every step whose duration is at least the 400 ms fade
sub-duration, animateStep composes exactly three transitions: the scale
value moves to its target over the full duration starting at offset 0, the
text value fades in over 400 ms starting at offset 0, and the text value
fades out over 400 ms starting at the non-negative offset duration - 400,
so that the fade-out ends exactly when the scale transition ends. -/
theorem animateStep_composition (t : ℚ) (d : Nat)
    (h : fadeInAnimDuration ≤ d) :
    animateStep t d =
        [ { value := AnimVal.scaleAnimVal, toValue := t, startTime := 0,
            duration := d },
          { value := AnimVal.textAnimVal, toValue := 1, startTime := 0,
            duration := fadeInAnimDuration },
          { value := AnimVal.textAnimVal, toValue := 0,
            startTime := (d : Int) - (fadeInAnimDuration : Int),
            duration := fadeInAnimDuration } ]
      ∧ 0 ≤ (d : Int) - (fadeInAnimDuration : Int)
      ∧ ((d : Int) - (fadeInAnimDuration : Int)) + (fadeInAnimDuration : Int)
          = 0 + (d : Int) := by
  refine ⟨?_, ?_, ?_⟩
  · simp [animateStep, staggerAnims, staggerAux, parallelAnims, animate,
      shiftAnim]
  · simp only [fadeInAnimDuration] at h ⊢
    omega
  · omega

/-- Witness for C5 at target 1 and duration 4000. -/
theorem animateStep_composition_witness :
    animateStep 1 4000 =
        [ { value := AnimVal.scaleAnimVal, toValue := 1, startTime := 0,
            duration := 4000 },
          { value := AnimVal.textAnimVal, toValue := 1, startTime := 0,
            duration := fadeInAnimDuration },
          { value := AnimVal.textAnimVal, toValue := 0,
            startTime := ((4000 : Nat) : Int) - (fadeInAnimDuration : Int),
            duration := fadeInAnimDuration } ] :=
  (animateStep_composition 1 4000 (by decide)).1

/-- C7 counterexample: at an afterInhale step the code plays the shared
hold cue but takes no action on the minimized-circle animation, so the
minimized circle is not hidden on both hold states as the claim states. -/
theorem onStepStart_afterInhale_not_hidden :
    (onStepStart [⟨StepId.afterInhale, 1000, false, false, "hold"⟩] 0).map
        StepEffects.circleMin = some CircleMinAction.noAction
      ∧ some CircleMinAction.noAction ≠ some CircleMinAction.hideMin := by
  decide

/-- C7 (amended): for every active list and index holding a step,
onStepStart fires exactly one sound cue determined by the step id —
breathe out for exhale, breathe in for inhale, one shared hold cue for
both afterInhale and afterExhale — stores the index, starts the
minimized-circle animation on exhale, hides it on inhale and on
afterExhale, and leaves it untouched on afterInhale. -/
theorem onStepStart_effects_by_id (active : List Step) (i : Nat)
    (step : Step) (h : active.get? i = some step) :
    onStepStart active i
        = some { setCurrentStepIndex := i,
                 sounds := [soundForId step.id],
                 circleMin := circleMinForId step.id }
      ∧ soundForId StepId.afterInhale = soundForId StepId.afterExhale := by
  refine ⟨?_, rfl⟩
  cases step with
  | mk id dur sk dots lab =>
    have h2 : active[i]? = some ⟨id, dur, sk, dots, lab⟩ := by
      simpa [List.get?_eq_getElem?] using h
    cases id <;> simp [onStepStart, h2, soundForId, circleMinForId]

/-- Witness for C7 at a concrete exhale step. -/
theorem onStepStart_effects_by_id_witness :
    onStepStart [⟨StepId.exhale, 2000, false, true, "out"⟩] 0
      = some { setCurrentStepIndex := 0, sounds := ["lauraBreatheOut"],
               circleMin := CircleMinAction.showMin } :=
  ((onStepStart_effects_by_id [⟨StepId.exhale, 2000, false, true, "out"⟩] 0
      ⟨StepId.exhale, 2000, false, true, "out"⟩ rfl).1).trans (by decide)
